import Mathlib

/-!
# Verification of the Deep_Learning_From_Scratch network

Shallow embedding of the executable cells of `DeepLearningFromScratch.ipynb`:
a fixed 4 → 16 → 16 → 1 feed-forward network with ReLU hidden activations and
a logistic output, trained by per-sample stochastic gradient descent on the
squared error.  NumPy arrays of shape (m, n) become `Matrix (Fin m) (Fin n) ℝ`;
`@` becomes matrix multiplication, elementwise `*` becomes `emul`, and the
NumPy broadcast of an (m, 1) bias over an (m, k) matrix becomes `addBias`.
-/

namespace DeepLearningFromScratch

open Matrix

/-- Elementwise product of two equally shaped matrices (NumPy `*`). -/
def emul {m n : ℕ} (A B : Matrix (Fin m) (Fin n) ℝ) : Matrix (Fin m) (Fin n) ℝ :=
  fun i j => A i j * B i j

/-- NumPy broadcast `A + b` of an (m, 1) bias column over an (m, k) matrix. -/
def addBias {m k : ℕ} (A : Matrix (Fin m) (Fin k) ℝ) (b : Matrix (Fin m) (Fin 1) ℝ) :
    Matrix (Fin m) (Fin k) ℝ :=
  fun i j => A i j + b i 0

/-- Source `relu`: `np.maximum(x, 0)`, elementwise. -/
noncomputable def relu {m n : ℕ} (x : Matrix (Fin m) (Fin n) ℝ) : Matrix (Fin m) (Fin n) ℝ :=
  fun i j => max (x i j) 0

/-- Source `logistic` on one entry: `1 / (1 + np.exp(-x))`. -/
noncomputable def logistic (x : ℝ) : ℝ := 1 / (1 + Real.exp (-x))

/-- Source `d_relu`: the boolean array `x > 0`, which NumPy coerces to 1.0 / 0.0
when it is later multiplied with a float array. -/
noncomputable def d_relu {m n : ℕ} (x : Matrix (Fin m) (Fin n) ℝ) : Matrix (Fin m) (Fin n) ℝ :=
  fun i j => if 0 < x i j then 1 else 0

/-- Source `d_logistic` on one entry: `np.exp(-x) / (1 + np.exp(-x)) ** 2`. -/
noncomputable def d_logistic (x : ℝ) : ℝ := Real.exp (-x) / (1 + Real.exp (-x)) ^ 2

/-- The six global parameter tensors of the notebook, with their NumPy shapes
(16,4), (16,1), (16,16), (16,1), (1,16), (1,1) fixed by `np.random.rand`. -/
structure Params where
  w_first_hidden : Matrix (Fin 16) (Fin 4) ℝ
  b_first_hidden : Matrix (Fin 16) (Fin 1) ℝ
  w_second_hidden : Matrix (Fin 16) (Fin 16) ℝ
  b_second_hidden : Matrix (Fin 16) (Fin 1) ℝ
  w_output : Matrix (Fin 1) (Fin 16) ℝ
  b_output : Matrix (Fin 1) (Fin 1) ℝ

/-- The six values returned by `forward_propagation`, for a batch of k columns
(the notebook calls it with k = 1 during training and k = |test set| during
evaluation). -/
structure ForwardCache (k : ℕ) where
  first_algebra : Matrix (Fin 16) (Fin k) ℝ
  first_function : Matrix (Fin 16) (Fin k) ℝ
  second_algebra : Matrix (Fin 16) (Fin k) ℝ
  second_function : Matrix (Fin 16) (Fin k) ℝ
  output_algebra : Matrix (Fin 1) (Fin k) ℝ
  result : Matrix (Fin 1) (Fin k) ℝ

/-- Source `forward_propagation`.  The NumPy function reads the six parameter
tensors from the enclosing module scope; here they are passed as `p`. -/
noncomputable def forward_propagation {k : ℕ} (p : Params)
    (input_vector : Matrix (Fin 4) (Fin k) ℝ) : ForwardCache k :=
  let first_algebra := addBias (p.w_first_hidden * input_vector) p.b_first_hidden
  let first_function := relu first_algebra
  let second_algebra := addBias (p.w_second_hidden * first_function) p.b_second_hidden
  let second_function := relu second_algebra
  let output_algebra := addBias (p.w_output * second_function) p.b_output
  let result := output_algebra.map logistic
  ⟨first_algebra, first_function, second_algebra, second_function, output_algebra, result⟩

/-- The six gradient tensors returned by `backward_propagation`, in the order
the source returns them. -/
structure Grads where
  d_loss__d_w_output : Matrix (Fin 1) (Fin 16) ℝ
  d_loss__d_b_output : Matrix (Fin 1) (Fin 1) ℝ
  d_loss__d_w_second_hidden : Matrix (Fin 16) (Fin 16) ℝ
  d_loss__d_b_second_hidden : Matrix (Fin 16) (Fin 1) ℝ
  d_loss__d_w_first_hidden : Matrix (Fin 16) (Fin 4) ℝ
  d_loss__d_b_first_hidden : Matrix (Fin 16) (Fin 1) ℝ

/-- Source `backward_propagation`.  Besides its eight listed arguments the
NumPy function also reads the module-level globals `w_output` and
`w_second_hidden`; those two captured tensors are made explicit here as the
first two arguments. -/
noncomputable def backward_propagation
    (w_output : Matrix (Fin 1) (Fin 16) ℝ)
    (w_second_hidden : Matrix (Fin 16) (Fin 16) ℝ)
    (first_algebra first_function second_algebra second_function : Matrix (Fin 16) (Fin 1) ℝ)
    (output_algebra result : Matrix (Fin 1) (Fin 1) ℝ)
    (input_vector : Matrix (Fin 4) (Fin 1) ℝ)
    (real_value : ℝ) : Grads :=
  let d_loss__d_result : Matrix (Fin 1) (Fin 1) ℝ := fun i j => 2 * (result i j - real_value)
  let d_result__d_output_algebra := output_algebra.map d_logistic
  let d_loss__d_output_algebra := emul d_loss__d_result d_result__d_output_algebra
  let d_loss__d_w_output := d_loss__d_output_algebra * second_functionᵀ
  let d_loss__d_b_output := d_loss__d_output_algebra
  let d_loss__d_second_function := w_outputᵀ * d_loss__d_output_algebra
  let d_second_function__d_second_algebra := d_relu second_algebra
  let d_loss__d_second_algebra := emul d_second_function__d_second_algebra d_loss__d_second_function
  let d_loss__d_w_second_hidden := d_loss__d_second_algebra * first_functionᵀ
  let d_loss__d_b_second_hidden := d_loss__d_second_algebra
  let d_loss__d_first_function := w_second_hiddenᵀ * d_loss__d_second_algebra
  let d_first_function__d_first_algebra := d_relu first_algebra
  let d_loss__d_first_algebra := emul d_first_function__d_first_algebra d_loss__d_first_function
  let d_loss__d_w_first_hidden := d_loss__d_first_algebra * input_vectorᵀ
  let d_loss__d_b_first_hidden := d_loss__d_first_algebra
  ⟨d_loss__d_w_output, d_loss__d_b_output,
    d_loss__d_w_second_hidden, d_loss__d_b_second_hidden,
    d_loss__d_w_first_hidden, d_loss__d_b_first_hidden⟩

/-- Source `epochs = 100`. -/
def epochs : ℕ := 100

/-- Source `learning_rate = .01`. -/
noncomputable def learning_rate : ℝ := 0.01

/-- One training sample: a (4,1) predictor column and its scalar response. -/
def Sample : Type := Matrix (Fin 4) (Fin 1) ℝ × ℝ

/-- The body of the inner training loop for one sample: forward propagation,
backward propagation (which reads the current `w_output` and
`w_second_hidden`), then the six in-place updates `P -= learning_rate * G`. -/
noncomputable def sgd_step (lr : ℝ) (p : Params) (s : Sample) : Params :=
  let cache := forward_propagation p s.1
  let g := backward_propagation p.w_output p.w_second_hidden
    cache.first_algebra cache.first_function cache.second_algebra cache.second_function
    cache.output_algebra cache.result s.1 s.2
  { w_first_hidden := p.w_first_hidden - lr • g.d_loss__d_w_first_hidden
    b_first_hidden := p.b_first_hidden - lr • g.d_loss__d_b_first_hidden
    w_second_hidden := p.w_second_hidden - lr • g.d_loss__d_w_second_hidden
    b_second_hidden := p.b_second_hidden - lr • g.d_loss__d_b_second_hidden
    w_output := p.w_output - lr • g.d_loss__d_w_output
    b_output := p.b_output - lr • g.d_loss__d_b_output }

/-- One epoch: the inner `for i in range(len(training_predictors))` loop,
visiting the training samples in their fixed list order. -/
noncomputable def train_epoch (lr : ℝ) (samples : List Sample) (p : Params) : Params :=
  samples.foldl (sgd_step lr) p

/-- The outer `for epoch in range(epochs)` loop: `e` epochs over the same
sample list in the same order, no re-shuffling. -/
noncomputable def training_loop (e : ℕ) (lr : ℝ) (samples : List Sample) (p : Params) : Params :=
  match e with
  | 0 => p
  | n + 1 => training_loop n lr samples (train_epoch lr samples p)

/-- NumPy `np.round` on one real entry: round to the nearest integer, ties to
the nearest even integer (banker's rounding). -/
noncomputable def np_round (x : ℝ) : ℤ :=
  let f := Int.floor x
  let r := x - f
  if r < 1 / 2 then f
  else if 1 / 2 < r then f + 1
  else if 2 ∣ f then f else f + 1

/-- Source `predictions = forward_propagation(testing_predictors.T)[5].round().astype(int)`:
the batched forward pass over the transposed test predictors, rounded. -/
noncomputable def predictions {k : ℕ} (p : Params)
    (testing_predictors_T : Matrix (Fin 4) (Fin k) ℝ) : Matrix (Fin 1) (Fin k) ℤ :=
  ((forward_propagation p testing_predictors_T).result).map np_round

/-- Shape of an embedded NumPy array, as the pair `(rows, columns)`. -/
def shape {m n : ℕ} (_A : Matrix (Fin m) (Fin n) ℝ) : ℕ × ℕ := (m, n)

/-- Column j of an (m, k) matrix, as an (m, 1) column matrix. -/
def getCol {m k : ℕ} (A : Matrix (Fin m) (Fin k) ℝ) (j : Fin k) : Matrix (Fin m) (Fin 1) ℝ :=
  fun i _ => A i j

/-! ## Helper lemmas -/

lemma one_add_exp_pos (x : ℝ) : 0 < 1 + Real.exp (-x) := by positivity

lemma logistic_pos (x : ℝ) : 0 < logistic x := by
  unfold logistic
  positivity

lemma logistic_lt_one (x : ℝ) : logistic x < 1 := by
  unfold logistic
  rw [div_lt_one (one_add_exp_pos x)]
  have := Real.exp_pos (-x)
  linarith

lemma logistic_zero : logistic 0 = 1 / 2 := by
  unfold logistic
  rw [neg_zero, Real.exp_zero]
  norm_num

lemma logistic_lt_logistic {x y : ℝ} (h : x < y) : logistic x < logistic y := by
  unfold logistic
  have hexp : Real.exp (-y) < Real.exp (-x) := Real.exp_lt_exp.mpr (by linarith)
  exact one_div_lt_one_div_of_lt (one_add_exp_pos y) (by linarith)

lemma d_logistic_eq (x : ℝ) : d_logistic x = logistic x * (1 - logistic x) := by
  unfold d_logistic logistic
  have h := (one_add_exp_pos x).ne'
  field_simp
  ring

lemma addBias_one_col {m : ℕ} (A b : Matrix (Fin m) (Fin 1) ℝ) : addBias A b = A + b := by
  funext i j
  have hj : j = 0 := Fin.eq_zero j
  subst hj
  simp [addBias, Matrix.add_apply]

/-! ## Claims -/

/-- C8: for every real x, logistic(x) lies strictly between 0 and 1,
logistic(0) = 0.5, and logistic is monotonically increasing. -/
theorem C8_logistic_range_monotone :
    ∀ x : ℝ, (0 < logistic x ∧ logistic x < 1) ∧ logistic 0 = 1 / 2 ∧
      ∀ y : ℝ, x < y → logistic x < logistic y := by
  intro x
  exact ⟨⟨logistic_pos x, logistic_lt_one x⟩, logistic_zero,
    fun y h => logistic_lt_logistic h⟩

/-- Witness for C8 at x = 0, y = 1. -/
theorem C8_logistic_range_monotone_witness :
    (0 : ℝ) < 1 ∧ logistic 0 < logistic 1 :=
  ⟨zero_lt_one, (C8_logistic_range_monotone 0).2.2 1 zero_lt_one⟩

/-- C2: for every parameter setting and every 4-dimensional input column,
forward_propagation returns exactly the six values z1 = W1·x + b1,
a1 = relu(z1), z2 = W2·a1 + b2, a2 = relu(z2), z3 = W3·a2 + b3,
ŷ = logistic(z3), with relu(v) = max(v,0) elementwise and
logistic(v) = 1/(1 + e^(−v)); being a Lean function of `p` and `x` alone, it
reads and writes no other state. -/
theorem C2_forward_propagation_formulas (p : Params) (x : Matrix (Fin 4) (Fin 1) ℝ) :
    forward_propagation p x =
      let z1 := p.w_first_hidden * x + p.b_first_hidden
      let a1 : Matrix (Fin 16) (Fin 1) ℝ := fun i j => max (z1 i j) 0
      let z2 := p.w_second_hidden * a1 + p.b_second_hidden
      let a2 : Matrix (Fin 16) (Fin 1) ℝ := fun i j => max (z2 i j) 0
      let z3 := p.w_output * a2 + p.b_output
      let yhat : Matrix (Fin 1) (Fin 1) ℝ := fun i j => 1 / (1 + Real.exp (-(z3 i j)))
      ⟨z1, a1, z2, a2, z3, yhat⟩ := by
  simp only [forward_propagation, addBias_one_col]
  rfl

/-- C6: tensor shapes are invariant: every parameter state has the six shapes
(16,4), (16,1), (16,16), (16,1), (1,16), (1,1); an SGD update step returns a
state with the same six shapes; and forward_propagation on a 4-dimensional
input returns tensors of shapes (16,1), (16,1), (16,1), (16,1), (1,1), (1,1)
regardless of the input values. -/
theorem C6_shape_invariants (p : Params) (s : Sample) (x : Matrix (Fin 4) (Fin 1) ℝ) :
    (shape p.w_first_hidden = (16, 4) ∧ shape p.b_first_hidden = (16, 1) ∧
     shape p.w_second_hidden = (16, 16) ∧ shape p.b_second_hidden = (16, 1) ∧
     shape p.w_output = (1, 16) ∧ shape p.b_output = (1, 1)) ∧
    (shape (sgd_step learning_rate p s).w_first_hidden = (16, 4) ∧
     shape (sgd_step learning_rate p s).b_first_hidden = (16, 1) ∧
     shape (sgd_step learning_rate p s).w_second_hidden = (16, 16) ∧
     shape (sgd_step learning_rate p s).b_second_hidden = (16, 1) ∧
     shape (sgd_step learning_rate p s).w_output = (1, 16) ∧
     shape (sgd_step learning_rate p s).b_output = (1, 1)) ∧
    (shape (forward_propagation p x).first_algebra = (16, 1) ∧
     shape (forward_propagation p x).first_function = (16, 1) ∧
     shape (forward_propagation p x).second_algebra = (16, 1) ∧
     shape (forward_propagation p x).second_function = (16, 1) ∧
     shape (forward_propagation p x).output_algebra = (1, 1) ∧
     shape (forward_propagation p x).result = (1, 1)) := by
  refine ⟨⟨rfl, rfl, rfl, rfl, rfl, rfl⟩, ⟨rfl, rfl, rfl, rfl, rfl, rfl⟩,
    rfl, rfl, rfl, rfl, rfl, rfl⟩

lemma map_d_logistic (z : Matrix (Fin 1) (Fin 1) ℝ) :
    z.map d_logistic = fun i j => logistic (z i j) * (1 - logistic (z i j)) := by
  funext i j
  simp [Matrix.map_apply, d_logistic_eq]

lemma emul_scale (yhat : Matrix (Fin 1) (Fin 1) ℝ) (y : ℝ) (D : Matrix (Fin 1) (Fin 1) ℝ) :
    emul (fun i j => 2 * (yhat i j - y)) D = fun i j => 2 * (yhat i j - y) * D i j := by
  funext i j
  simp [emul]

lemma emul_d_relu {m : ℕ} (z D : Matrix (Fin m) (Fin 1) ℝ) :
    emul (d_relu z) D = fun i j => D i j * (if 0 < z i j then 1 else 0) := by
  funext i j
  simp [emul, d_relu, mul_comm]

/-- C1: backward_propagation returns exactly the six gradient tensors of the
chain rule for the loss (ŷ − y)²: dL/dz3 = 2(ŷ − y)·σ(z3)(1 − σ(z3)),
dL/dW3 = dL/dz3·a2ᵗ, dL/db3 = dL/dz3, dL/dz2 = (W3ᵗ·dL/dz3) ⊙ [z2 > 0],
dL/dW2 = dL/dz2·a1ᵗ, dL/db2 = dL/dz2, dL/dz1 = (W2ᵗ·dL/dz2) ⊙ [z1 > 0],
dL/dW1 = dL/dz1·xᵗ, dL/db1 = dL/dz1, where the ReLU derivative at exactly 0
is 0 (strict-positivity indicator).  W3 and W2 are the captured globals. -/
theorem C1_backward_propagation_formulas
    (w3 : Matrix (Fin 1) (Fin 16) ℝ) (w2 : Matrix (Fin 16) (Fin 16) ℝ)
    (z1 a1 z2 a2 : Matrix (Fin 16) (Fin 1) ℝ) (z3 yhat : Matrix (Fin 1) (Fin 1) ℝ)
    (x : Matrix (Fin 4) (Fin 1) ℝ) (y : ℝ) :
    backward_propagation w3 w2 z1 a1 z2 a2 z3 yhat x y =
      let dz3 : Matrix (Fin 1) (Fin 1) ℝ :=
        fun i j => 2 * (yhat i j - y) * (logistic (z3 i j) * (1 - logistic (z3 i j)))
      let dz2 : Matrix (Fin 16) (Fin 1) ℝ :=
        fun i j => (w3ᵀ * dz3) i j * (if 0 < z2 i j then 1 else 0)
      let dz1 : Matrix (Fin 16) (Fin 1) ℝ :=
        fun i j => (w2ᵀ * dz2) i j * (if 0 < z1 i j then 1 else 0)
      ⟨dz3 * a2ᵀ, dz3, dz2 * a1ᵀ, dz2, dz1 * xᵀ, dz1⟩ := by
  simp only [backward_propagation, map_d_logistic, emul_scale, emul_d_relu]

/-- C5 fails as stated: two invocations of backward_propagation with equal
values of the eight listed arguments but different values of the captured
global W3 (`w_output`) return different gradients for W2. -/
theorem C5_counterexample :
    backward_propagation 0 0 (fun _ _ => 1) (fun _ _ => 1) (fun _ _ => 1) (fun _ _ => 1)
        0 (fun _ _ => 1) (fun _ _ => 1) 0 ≠
      backward_propagation (fun _ _ => 1) 0 (fun _ _ => 1) (fun _ _ => 1) (fun _ _ => 1)
        (fun _ _ => 1) 0 (fun _ _ => 1) (fun _ _ => 1) 0 := by
  intro h
  have h2 := congrArg (fun g => g.d_loss__d_w_second_hidden 0 0) h
  simp [backward_propagation, emul, d_relu, d_logistic, Matrix.mul_apply, Matrix.map_apply,
    Matrix.transpose_apply, Real.exp_zero, Fin.sum_univ_one] at h2

/-- C5, amended: backward_propagation is a pure function of its eight listed
arguments together with the current values of the captured weight tensors
`w_output` (W3) and `w_second_hidden` (W2): any two invocations agreeing on
all ten of these values return equal gradients. -/
theorem C5_amended_backward_pure
    (w3 w3' : Matrix (Fin 1) (Fin 16) ℝ) (w2 w2' : Matrix (Fin 16) (Fin 16) ℝ)
    (z1 a1 z2 a2 z1' a1' z2' a2' : Matrix (Fin 16) (Fin 1) ℝ)
    (z3 yhat z3' yhat' : Matrix (Fin 1) (Fin 1) ℝ)
    (x x' : Matrix (Fin 4) (Fin 1) ℝ) (y y' : ℝ)
    (hw3 : w3 = w3') (hw2 : w2 = w2') (h1 : z1 = z1') (h2 : a1 = a1') (h3 : z2 = z2')
    (h4 : a2 = a2') (h5 : z3 = z3') (h6 : yhat = yhat') (h7 : x = x') (h8 : y = y') :
    backward_propagation w3 w2 z1 a1 z2 a2 z3 yhat x y =
      backward_propagation w3' w2' z1' a1' z2' a2' z3' yhat' x' y' := by
  subst hw3 hw2 h1 h2 h3 h4 h5 h6 h7 h8
  rfl

/-- Witness for the amended C5, at the all-zero inputs. -/
theorem C5_amended_backward_pure_witness :
    backward_propagation 0 0 0 0 0 0 0 0 0 0 =
      backward_propagation 0 0 0 0 0 0 0 0 0 0 :=
  C5_amended_backward_pure 0 0 0 0 0 0 0 0 0 0 0 0 0 0 0 0 0 0 0 0
    rfl rfl rfl rfl rfl rfl rfl rfl rfl rfl

lemma training_loop_eq_iterate (e : ℕ) (lr : ℝ) (samples : List Sample) (p : Params) :
    training_loop e lr samples p = (fun q => samples.foldl (sgd_step lr) q)^[e] p := by
  induction e generalizing p with
  | zero => rfl
  | succ n ih =>
    rw [training_loop, Function.iterate_succ_apply]
    exact ih _

/-- C3: the training loop runs epochs = 100 passes over the sample list in the
same fixed order every epoch (no re-shuffling), with fixed learning rate
η = 0.01, and each per-sample step runs forward propagation, then backward
propagation on the resulting cache (reading the current weights), then
replaces each of the six parameter tensors P with gradient G by P − η·G; there
is no momentum, regularization, or early stopping. -/
theorem C3_training_loop_structure (samples : List Sample) (p : Params) (s : Sample) :
    epochs = 100 ∧ learning_rate = 1 / 100 ∧
    training_loop epochs learning_rate samples p =
      (fun q => samples.foldl (sgd_step learning_rate) q)^[epochs] p ∧
    sgd_step learning_rate p s =
      (let cache := forward_propagation p s.1
       let g := backward_propagation p.w_output p.w_second_hidden
         cache.first_algebra cache.first_function cache.second_algebra cache.second_function
         cache.output_algebra cache.result s.1 s.2
       { w_first_hidden := p.w_first_hidden - learning_rate • g.d_loss__d_w_first_hidden
         b_first_hidden := p.b_first_hidden - learning_rate • g.d_loss__d_b_first_hidden
         w_second_hidden := p.w_second_hidden - learning_rate • g.d_loss__d_w_second_hidden
         b_second_hidden := p.b_second_hidden - learning_rate • g.d_loss__d_b_second_hidden
         w_output := p.w_output - learning_rate • g.d_loss__d_w_output
         b_output := p.b_output - learning_rate • g.d_loss__d_b_output }) := by
  refine ⟨rfl, ?_, training_loop_eq_iterate epochs learning_rate samples p, rfl⟩
  norm_num [learning_rate]

lemma np_round_of_mem_Ioo {y : ℝ} (h0 : 0 < y) (h1 : y < 1) :
    np_round y = if y ≤ 1 / 2 then 0 else 1 := by
  have hf : ⌊y⌋ = 0 := Int.floor_eq_zero_iff.mpr ⟨h0.le, h1⟩
  unfold np_round
  rw [hf]
  push_cast
  rw [sub_zero]
  rcases lt_trichotomy y (1 / 2) with hlt | heq | hgt
  · rw [if_pos hlt, if_pos hlt.le]
  · rw [if_neg (by linarith), if_neg (by linarith), if_pos ⟨0, rfl⟩, if_pos heq.le]
  · rw [if_neg (by linarith), if_pos hgt, if_neg (by linarith)]

/-- C4 fails as stated: at the all-zero parameters and the zero input the
forward pass outputs exactly ŷ = 0.5, and the evaluation classifies it as 0,
not 1 — NumPy `round` sends the tie 0.5 to the nearest even integer. -/
theorem C4_counterexample :
    (forward_propagation ⟨0, 0, 0, 0, 0, 0⟩ (0 : Matrix (Fin 4) (Fin 1) ℝ)).result 0 0 = 1 / 2 ∧
      predictions ⟨0, 0, 0, 0, 0, 0⟩ (0 : Matrix (Fin 4) (Fin 1) ℝ) 0 0 = 0 := by
  have hres :
      (forward_propagation ⟨0, 0, 0, 0, 0, 0⟩ (0 : Matrix (Fin 4) (Fin 1) ℝ)).result 0 0
        = 1 / 2 := by
    simp [forward_propagation, addBias, relu, logistic, Matrix.map_apply, Real.exp_zero]
    norm_num
  refine ⟨hres, ?_⟩
  show np_round ((forward_propagation ⟨0, 0, 0, 0, 0, 0⟩ (0 : Matrix (Fin 4) (Fin 1) ℝ)).result 0 0) = 0
  rw [hres, np_round_of_mem_Ioo (by norm_num) (by norm_num)]
  norm_num

/-- C4, amended: each test prediction ŷ is rounded to the nearest integer with
ties going to the nearest even integer (NumPy round-half-even), so since
ŷ = logistic(z3) ∈ (0,1) the classification is 0 when ŷ ≤ 0.5 — in particular
a prediction of exactly 0.5 is classified as 0, not 1 — and 1 when ŷ > 0.5. -/
theorem C4_amended_round_half_even {k : ℕ} (p : Params) (X : Matrix (Fin 4) (Fin k) ℝ)
    (i : Fin 1) (j : Fin k) :
    predictions p X i j =
      if (forward_propagation p X).result i j ≤ 1 / 2 then 0 else 1 := by
  have hy : (forward_propagation p X).result i j
      = logistic ((forward_propagation p X).output_algebra i j) := rfl
  show np_round ((forward_propagation p X).result i j) = _
  rw [hy, np_round_of_mem_Ioo (logistic_pos _) (logistic_lt_one _)]

lemma getCol_mul {m n k : ℕ} (A : Matrix (Fin m) (Fin n) ℝ) (B : Matrix (Fin n) (Fin k) ℝ)
    (j : Fin k) : getCol (A * B) j = A * getCol B j := by
  funext i j'
  simp [getCol, Matrix.mul_apply]

lemma getCol_addBias {m k : ℕ} (A : Matrix (Fin m) (Fin k) ℝ) (b : Matrix (Fin m) (Fin 1) ℝ)
    (j : Fin k) : getCol (addBias A b) j = addBias (getCol A j) b := rfl

lemma getCol_relu {m k : ℕ} (A : Matrix (Fin m) (Fin k) ℝ) (j : Fin k) :
    getCol (relu A) j = relu (getCol A j) := rfl

lemma getCol_map {m k : ℕ} (A : Matrix (Fin m) (Fin k) ℝ) (f : ℝ → ℝ) (j : Fin k) :
    getCol (A.map f) j = (getCol A j).map f := rfl

/-- C9: forward_propagation commutes with horizontal stacking: for a 4×k input
matrix, column j of each of the six returned tensors equals the corresponding
tensor returned by forward_propagation on column j of the input (the bias
columns broadcast across the batch), so batched evaluation equals per-sample
evaluation. -/
theorem C9_forward_batches_columnwise {k : ℕ} (p : Params) (X : Matrix (Fin 4) (Fin k) ℝ)
    (j : Fin k) :
    getCol (forward_propagation p X).first_algebra j =
        (forward_propagation p (getCol X j)).first_algebra ∧
      getCol (forward_propagation p X).first_function j =
        (forward_propagation p (getCol X j)).first_function ∧
      getCol (forward_propagation p X).second_algebra j =
        (forward_propagation p (getCol X j)).second_algebra ∧
      getCol (forward_propagation p X).second_function j =
        (forward_propagation p (getCol X j)).second_function ∧
      getCol (forward_propagation p X).output_algebra j =
        (forward_propagation p (getCol X j)).output_algebra ∧
      getCol (forward_propagation p X).result j =
        (forward_propagation p (getCol X j)).result := by
  have h1 : getCol (forward_propagation p X).first_algebra j
      = (forward_propagation p (getCol X j)).first_algebra := by
    show getCol (addBias (p.w_first_hidden * X) p.b_first_hidden) j
      = addBias (p.w_first_hidden * getCol X j) p.b_first_hidden
    rw [getCol_addBias, getCol_mul]
  have h2 : getCol (forward_propagation p X).first_function j
      = (forward_propagation p (getCol X j)).first_function := by
    show getCol (relu (forward_propagation p X).first_algebra) j
      = relu (forward_propagation p (getCol X j)).first_algebra
    rw [getCol_relu, h1]
  have h3 : getCol (forward_propagation p X).second_algebra j
      = (forward_propagation p (getCol X j)).second_algebra := by
    show getCol (addBias (p.w_second_hidden * (forward_propagation p X).first_function)
        p.b_second_hidden) j
      = addBias (p.w_second_hidden * (forward_propagation p (getCol X j)).first_function)
        p.b_second_hidden
    rw [getCol_addBias, getCol_mul, h2]
  have h4 : getCol (forward_propagation p X).second_function j
      = (forward_propagation p (getCol X j)).second_function := by
    show getCol (relu (forward_propagation p X).second_algebra) j
      = relu (forward_propagation p (getCol X j)).second_algebra
    rw [getCol_relu, h3]
  have h5 : getCol (forward_propagation p X).output_algebra j
      = (forward_propagation p (getCol X j)).output_algebra := by
    show getCol (addBias (p.w_output * (forward_propagation p X).second_function)
        p.b_output) j
      = addBias (p.w_output * (forward_propagation p (getCol X j)).second_function) p.b_output
    rw [getCol_addBias, getCol_mul, h4]
  have h6 : getCol (forward_propagation p X).result j
      = (forward_propagation p (getCol X j)).result := by
    show getCol ((forward_propagation p X).output_algebra.map logistic) j
      = ((forward_propagation p (getCol X j)).output_algebra).map logistic
    rw [getCol_map, h5]
  exact ⟨h1, h2, h3, h4, h5, h6⟩

end DeepLearningFromScratch
